import Mathlib

/-!
# Recommendation server (`server.go`): embedding and verified properties

The Go program keeps a ratings table and a product-to-category table in memory,
derives a category index and a popularity index from them once, and answers
each query with the user's purchases and a ranked list of recommendations.

Modelling decisions:

* A Go `map[string]V` is an association list `GoMap V` whose keys are distinct
  (`GoMap.WF`).  `m[k]` is `GoMap.get?`, `m[k] = v` is `GoMap.set`, and a
  `for ... range m` loop visits the entries in list order; a list order stands
  for the order Go happens to pick.
* `float64` ratings are never inspected by the program, only carried, so the
  rating type is a type parameter `R`.
* Go `int` is `Int`; the only arithmetic is `++` on counters bounded by the
  number of map entries, so wrap-around is out of reach.
* `sort.Slice` belongs to Go's standard library.  `recommendProducts` takes it
  as the parameter `sortSlice`; `IsSliceSort` states its contract (the result is
  a rearrangement of the slice in which no later element is `less` than an
  earlier one; stability is not promised).  `insertionSort` is the routine
  `sort.Slice` runs on short slices and is used for concrete evaluation.
-/

namespace Recommend

/-! ## Go maps -/

/-- Go `map[string]V`: association list, entries in iteration order. -/
abbrev GoMap (V : Type) := List (String × V)

namespace GoMap

variable {V : Type}

/-- The lookup `v, exists := m[key]`. -/
def get? : GoMap V → String → Option V
  | [], _ => none
  | (k, v) :: m, key => if k = key then some v else get? m key

/-- The assignment `m[key] = v`. -/
def set : GoMap V → String → V → GoMap V
  | [], key, v => [(key, v)]
  | (k, w) :: m, key, v => if k = key then (k, v) :: m else (k, w) :: set m key v

/-- The keys of the map, in iteration order. -/
def keys (m : GoMap V) : List String := m.map Prod.fst

/-- Well-formedness of a Go map: no key occurs twice. -/
def WF (m : GoMap V) : Prop := (keys m).Nodup

instance (m : GoMap V) : Decidable (WF m) := by unfold WF; infer_instance

end GoMap

/-! ## Data model (`server.go` lines 13-31) -/

/-- Go `type RatingsData map[string]map[string]float64` (user -> product -> rating). -/
abbrev RatingsData (R : Type) := GoMap (GoMap R)

/-- Go `type ProductCategories map[string]string` (product -> category). -/
abbrev ProductCategories := GoMap String

/-- Go `type CategoryProducts map[string][]string` (category -> products). -/
abbrev CategoryProducts := GoMap (List String)

/-- Go `type UserProduct struct`. -/
structure UserProduct (R : Type) where
  ProductID : String
  Rating : R
  Category : String
  deriving DecidableEq

/-- Go `type Recommendation struct`. -/
structure Recommendation where
  ProductID : String
  Category : String
  deriving DecidableEq

/-- Go `type UserData struct`. -/
structure UserData (R : Type) where
  PurchasedProducts : List (UserProduct R)
  Recommendations : List Recommendation
  deriving DecidableEq

/-- The local `type ProductInfo struct` of `recommendProducts`. -/
structure ProductInfo where
  ProductID : String
  Popularity : Int
  Category : String
  deriving DecidableEq

/-! ## `createCategoryProductsMap` (lines 173-189) -/

/-- Body of the inner loop of `createCategoryProductsMap` for one product. -/
def indexProduct (categories : ProductCategories)
    (st : CategoryProducts × GoMap Int) (product : String) : CategoryProducts × GoMap Int :=
  match categories.get? product with
  | none => st
  | some category =>
    (st.1.set category ((st.1.get? category).getD [] ++ [product]),
     st.2.set product ((st.2.get? product).getD 0 + 1))

/-- Function `createCategoryProductsMap`: the category index and the popularity index. -/
def createCategoryProductsMap {R : Type} (ratings : RatingsData R)
    (categories : ProductCategories) : CategoryProducts × GoMap Int :=
  ratings.foldl
    (fun st user => user.2.foldl (fun st entry => indexProduct categories st entry.1) st)
    ([], [])

/-! ## `calculateUserCategoryPreferences` and `getUserPreferredCategories` (lines 191-222) -/

/-- Body of the loop of `calculateUserCategoryPreferences` for one product. -/
def countCategory (categories : ProductCategories) (categoryCounts : GoMap Int)
    (product : String) : GoMap Int :=
  match categories.get? product with
  | none => categoryCounts
  | some category => categoryCounts.set category ((categoryCounts.get? category).getD 0 + 1)

/-- Function `calculateUserCategoryPreferences`: category -> number of the user's products. -/
def calculateUserCategoryPreferences {R : Type} (userProducts : GoMap R)
    (categories : ProductCategories) : GoMap Int :=
  userProducts.foldl (fun counts entry => countCategory categories counts entry.1) []

/-- First loop of `getUserPreferredCategories`: the largest count, starting from 0. -/
def maxCountOf (categoryCounts : GoMap Int) : Int :=
  categoryCounts.foldl (fun maxCount entry => if entry.2 > maxCount then entry.2 else maxCount) 0

/-- Function `getUserPreferredCategories`: the categories whose count is the largest one. -/
def getUserPreferredCategories (categoryCounts : GoMap Int) : List String :=
  let maxCount := maxCountOf categoryCounts
  categoryCounts.foldl
    (fun preferredCategories entry =>
      if entry.2 = maxCount then preferredCategories ++ [entry.1] else preferredCategories)
    []

/-! ## `recommendProducts` (lines 224-271) -/

/-- The comparison handed to `sort.Slice`: `products[i].Popularity > products[j].Popularity`. -/
def less (a b : ProductInfo) : Prop := a.Popularity > b.Popularity

instance (a b : ProductInfo) : Decidable (less a b) := by unfold less; infer_instance

/-- Contract of `sort.Slice` with the comparison `less`: the result is a rearrangement
of the slice, and no element is `less` than one placed before it. -/
def IsSliceSort (sortSlice : List ProductInfo → List ProductInfo) : Prop :=
  ∀ l, (sortSlice l).Perm l ∧ (sortSlice l).Pairwise (fun a b => ¬ less b a)

/-- Inner loop of Go's `insertionSort`: `for j := i; j > a && less(j, j-1); j--` swaps
the new element towards the front.  The sorted prefix is passed back to front. -/
def sinkLeft (x : ProductInfo) : List ProductInfo → List ProductInfo
  | [] => [x]
  | y :: rest => if less x y then y :: sinkLeft x rest else x :: y :: rest

/-- Go's `insertionSort` with the comparison `less`, which is what `sort.Slice` runs on
a slice of at most 12 elements (on fewer than 7 in releases before Go 1.19). -/
def insertionSort (l : List ProductInfo) : List ProductInfo :=
  (l.foldl (fun sortedRev x => sinkLeft x sortedRev) []).reverse

/-- The first loop of `recommendProducts`: `productSet` seeded with the owned products. -/
def ownedSet {R : Type} (userProducts : GoMap R) : GoMap Bool :=
  userProducts.foldl (fun productSet entry => productSet.set entry.1 true) []

/-- Body of the inner candidate loop of `recommendProducts` for one product. -/
def scanProduct (productPopularity : GoMap Int) (category : String)
    (st : GoMap Bool × List ProductInfo) (product : String) : GoMap Bool × List ProductInfo :=
  if (st.1.get? product).getD false = true then st
  else if (st.1.get? product).isSome = true then st
  else
    (st.1.set product true,
     st.2 ++ [⟨product, (productPopularity.get? product).getD 0, category⟩])

/-- The candidate loops of `recommendProducts` (lines 238-251), from a given state. -/
def scanCategories (categoryProducts : CategoryProducts) (productPopularity : GoMap Int)
    (preferredCategories : List String) (st : GoMap Bool × List ProductInfo) :
    GoMap Bool × List ProductInfo :=
  preferredCategories.foldl
    (fun st category =>
      ((categoryProducts.get? category).getD []).foldl (scanProduct productPopularity category) st)
    st

/-- The last loop of `recommendProducts` (lines 259-268): append, then stop once
`len(recommendations) >= numRecommendations`. -/
def emitLoop (numRecommendations : Int) :
    List ProductInfo → List Recommendation → List Recommendation
  | [], recommendations => recommendations
  | productInfo :: rest, recommendations =>
    let recommendations := recommendations ++ [⟨productInfo.ProductID, productInfo.Category⟩]
    if (recommendations.length : Int) ≥ numRecommendations then recommendations
    else emitLoop numRecommendations rest recommendations

/-- Function `recommendProducts`, with `sort.Slice` as the parameter `sortSlice`. -/
def recommendProducts {R : Type} (sortSlice : List ProductInfo → List ProductInfo)
    (userProducts : GoMap R) (_categories : ProductCategories)
    (categoryProducts : CategoryProducts) (productPopularity : GoMap Int)
    (preferredCategories : List String) (numRecommendations : Int) : List Recommendation :=
  let products :=
    (scanCategories categoryProducts productPopularity preferredCategories
      (ownedSet userProducts, [])).2
  emitLoop numRecommendations (sortSlice products) []

/-! ## `handleClient` (lines 96-170) -/

/-- The loop of `handleClient` that builds the purchased-products payload (lines 126-138). -/
def purchasedLoop {R : Type} (categories : ProductCategories) :
    GoMap R → List (UserProduct R) → List (UserProduct R)
  | [], purchasedProducts => purchasedProducts
  | (productID, rating) :: rest, purchasedProducts =>
    let category :=
      match categories.get? productID with
      | some category => category
      | none => "Desconocida"
    purchasedLoop categories rest (purchasedProducts ++ [⟨productID, rating, category⟩])

/-- Function `handleClient` after the user identifier has been decoded: the `UserData` value
that is encoded back to the client. -/
def handleClient {R : Type} (sortSlice : List ProductInfo → List ProductInfo)
    (userID : String) (ratings : RatingsData R) (categories : ProductCategories)
    (categoryProducts : CategoryProducts) (productPopularity : GoMap Int) : UserData R :=
  match ratings.get? userID with
  | none => ⟨[], []⟩
  | some userProducts =>
    let purchasedProducts := purchasedLoop categories userProducts []
    let categoryCounts := calculateUserCategoryPreferences userProducts categories
    let preferredCategories := getUserPreferredCategories categoryCounts
    if preferredCategories.length = 0 then ⟨purchasedProducts, []⟩
    else
      ⟨purchasedProducts,
       recommendProducts sortSlice userProducts categories categoryProducts productPopularity
         preferredCategories 5⟩

/-! ## Specification-side notions -/

/-- Popularity of a product as the ranker reads it: the entry of the popularity index,
0 when the product has none. -/
def popularityOf (productPopularity : GoMap Int) (product : String) : Int :=
  (productPopularity.get? product).getD 0

/-- The pairs (category, product) met by the candidate loops, in scan order. -/
def scannedPairs (categoryProducts : CategoryProducts) : List String → List (String × String)
  | [] => []
  | category :: rest =>
    ((categoryProducts.get? category).getD []).map (fun product => (category, product))
      ++ scannedPairs categoryProducts rest

/-- A product is eligible when it is listed under some preferred category and the user
does not own it. -/
def Eligible {R : Type} (userProducts : GoMap R) (categoryProducts : CategoryProducts)
    (preferredCategories : List String) (product : String) : Prop :=
  (∃ category ∈ preferredCategories, product ∈ (categoryProducts.get? category).getD [])
    ∧ product ∉ userProducts.keys

/-- The distinct eligible products: those listed under a preferred category, without the
owned ones, each kept once. -/
def eligibleProducts {R : Type} (userProducts : GoMap R) (categoryProducts : CategoryProducts)
    (preferredCategories : List String) : List String :=
  ((preferredCategories.flatMap (fun category => (categoryProducts.get? category).getD [])).filter
    (fun product => decide (product ∉ userProducts.keys))).dedup

/-- The number `E` of distinct eligible products. -/
def eligibleCount {R : Type} (userProducts : GoMap R) (categoryProducts : CategoryProducts)
    (preferredCategories : List String) : Nat :=
  (eligibleProducts userProducts categoryProducts preferredCategories).length

/-! ## Definitions used by the proofs -/

/-- The output entry made from a candidate (lines 261-264). -/
def toRecommendation (productInfo : ProductInfo) : Recommendation :=
  ⟨productInfo.ProductID, productInfo.Category⟩

/-- The candidates recorded by the scan loops of `recommendProducts`, in discovery order. -/
def candidates {R : Type} (userProducts : GoMap R) (categoryProducts : CategoryProducts)
    (productPopularity : GoMap Int) (preferredCategories : List String) : List ProductInfo :=
  (scanCategories categoryProducts productPopularity preferredCategories
    (ownedSet userProducts, [])).2

/-- The number of entries `recommendProducts` emits at most: the limit, but at least one
since the loop tests the limit only after appending. -/
def emitBound (numRecommendations : Int) : Nat := max 1 numRecommendations.toNat

/-- Invariant of the candidate loops: what `productSet` and `products` hold after the
pairs `seen` have been scanned, for a user owning the products `owned`. -/
structure ScanInv (owned : List String) (productPopularity : GoMap Int)
    (seen : List (String × String)) (st : GoMap Bool × List ProductInfo) : Prop where
  vals : ∀ p v, st.1.get? p = some v → v = true
  keys : ∀ p, (st.1.get? p).isSome = true ↔ p ∈ owned ∨ p ∈ st.2.map ProductInfo.ProductID
  nodup : (st.2.map ProductInfo.ProductID).Nodup
  ids : ∀ p, p ∈ st.2.map ProductInfo.ProductID ↔ p ∈ seen.map Prod.snd ∧ p ∉ owned
  info : ∀ x ∈ st.2, x.Popularity = popularityOf productPopularity x.ProductID
    ∧ (x.Category, x.ProductID) ∈ seen

/-- The number of the user's products that the category table maps to `category`. -/
def categoryTally {R : Type} (userProducts : GoMap R) (categories : ProductCategories)
    (category : String) : Nat :=
  userProducts.keys.countP (fun product => categories.get? product = some category)

/-- What the tally map satisfies: distinct keys and counts of at least one. -/
def CountsOK (m : GoMap Int) : Prop := m.WF ∧ ∀ c v, m.get? c = some v → 1 ≤ v

/-- The number of users whose ratings contain `product`. -/
def purchaserCount {R : Type} (ratings : RatingsData R) (product : String) : Nat :=
  ratings.countP (fun user => decide (product ∈ user.2.keys))

/-- The category shown for a purchased product (lines 129-132). -/
def resolvedCategory (categories : ProductCategories) (productID : String) : String :=
  match categories.get? productID with
  | some category => category
  | none => "Desconocida"

/-! ## Sample data -/

/-- A user who bought one book and one record. -/
def sampleUser : GoMap ℚ := [("b1", 5), ("m1", 4)]

/-- Sample category table. -/
def sampleCategories : ProductCategories :=
  [("b1", "Books"), ("b2", "Books"), ("b3", "Books"), ("m1", "Music"), ("m2", "Music")]

/-- Sample category index; `b2` was bought by two users and is listed twice. -/
def sampleIndex : CategoryProducts :=
  [("Books", ["b1", "b2", "b3", "b2"]), ("Music", ["m1", "m2"])]

/-- Sample popularity index; `b2` and `m2` are equally popular. -/
def samplePopularity : GoMap Int := [("b1", 1), ("b2", 2), ("b3", 1), ("m1", 1), ("m2", 2)]

/-- Sample popularity index without ties among the products the user does not own. -/
def sampleDistinctPopularity : GoMap Int :=
  [("b1", 1), ("b2", 3), ("b3", 1), ("m1", 1), ("m2", 2)]

/-- Sample ratings table: two users bought `p1`, one of them also the uncategorised `p9`. -/
def sampleRatings : RatingsData ℚ := [("u1", [("p1", 5), ("p9", 3)]), ("u2", [("p1", 4)])]

/-! ## Lemmas on Go maps -/

namespace GoMap

variable {V : Type}

theorem get?_set_self (m : GoMap V) (k : String) (v : V) : (m.set k v).get? k = some v := by
  induction m with
  | nil => simp [set, get?]
  | cons e m ih =>
    obtain ⟨k0, w⟩ := e
    by_cases h : k0 = k
    · simp [set, get?, h]
    · simp [set, get?, h, ih]

theorem get?_set_ne (m : GoMap V) {k k1 : String} (v : V) (h : k ≠ k1) :
    (m.set k v).get? k1 = m.get? k1 := by
  induction m with
  | nil => simp [set, get?, h]
  | cons e m ih =>
    obtain ⟨k0, w⟩ := e
    by_cases h0 : k0 = k
    · subst h0
      simp [set, get?, h]
    · by_cases h1 : k0 = k1
      · subst h1
        simp [set, get?, h0]
      · simp [set, get?, h0, h1, ih]

theorem get?_eq_none_iff (m : GoMap V) (k : String) : m.get? k = none ↔ k ∉ m.keys := by
  induction m with
  | nil => simp [get?, keys]
  | cons e m ih =>
    obtain ⟨k0, w⟩ := e
    by_cases h : k0 = k
    · simp [get?, keys, h]
    · have h1 : ¬ k = k0 := fun hk => h hk.symm
      simp only [get?, h, if_false, ih]
      simp [keys, h1]

theorem get?_isSome_iff (m : GoMap V) (k : String) : (m.get? k).isSome = true ↔ k ∈ m.keys := by
  rw [← not_iff_not, ← get?_eq_none_iff]
  cases m.get? k <;> simp

theorem mem_keys_set (m : GoMap V) (k k1 : String) (v : V) :
    k1 ∈ (m.set k v).keys ↔ k1 = k ∨ k1 ∈ m.keys := by
  rw [← get?_isSome_iff, ← get?_isSome_iff]
  by_cases h : k = k1
  · subst h
    simp [get?_set_self]
  · have h1 : ¬ k1 = k := fun hk => h hk.symm
    simp [get?_set_ne m v h, h1]

theorem wf_set (m : GoMap V) (k : String) (v : V) (h : m.WF) : (m.set k v).WF := by
  induction m with
  | nil => simp [set, WF, keys]
  | cons e m ih =>
    obtain ⟨k0, w⟩ := e
    have hm : WF m := by
      simp only [WF, keys, List.map_cons, List.nodup_cons] at h
      exact h.2
    have hk0 : k0 ∉ keys m := by
      simp only [WF, keys, List.map_cons, List.nodup_cons] at h
      exact h.1
    by_cases h0 : k0 = k
    · simp only [set, h0, if_true]
      subst h0
      simpa [WF, keys] using h
    · simp only [set, h0, if_false]
      have h2 := ih hm
      have h3 : k0 ∉ keys (set m k v) := by
        rw [mem_keys_set]
        simp [h0, hk0]
      simp only [WF, keys, List.map_cons, List.nodup_cons]
      exact ⟨h3, h2⟩

theorem mem_iff_get? (m : GoMap V) (h : m.WF) (k : String) (v : V) :
    (k, v) ∈ m ↔ m.get? k = some v := by
  induction m with
  | nil => simp [get?]
  | cons e m ih =>
    obtain ⟨k0, w⟩ := e
    have hm : WF m := by
      simp only [WF, keys, List.map_cons, List.nodup_cons] at h
      exact h.2
    have hk0 : k0 ∉ keys m := by
      simp only [WF, keys, List.map_cons, List.nodup_cons] at h
      exact h.1
    by_cases h0 : k0 = k
    · subst h0
      simp only [get?, if_true, List.mem_cons, Prod.mk.injEq, true_and, Option.some.injEq]
      constructor
      · rintro (h1 | h1)
        · exact h1.symm
        · exact absurd (List.mem_map_of_mem Prod.fst h1) hk0
      · intro h1
        exact Or.inl h1.symm
    · have h1 : ¬ k = k0 := fun hk => h0 hk.symm
      simp only [get?, h0, if_false, List.mem_cons, Prod.mk.injEq, h1, false_and, false_or]
      exact ih hm

end GoMap

/-! ## Lemmas on the last loop and on sorting -/

theorem emitLoop_eq (n : Int) (l : List ProductInfo) (acc : List Recommendation) :
    emitLoop n l acc
      = acc ++ (l.take (max 1 (n.toNat - acc.length))).map toRecommendation := by
  induction l generalizing acc with
  | nil => simp [emitLoop]
  | cons x rest ih =>
    unfold emitLoop
    simp only
    split
    · rename_i h
      have hlen : (acc ++ [(⟨x.ProductID, x.Category⟩ : Recommendation)]).length
          = acc.length + 1 := by simp
      rw [hlen] at h
      have h1 : max 1 (n.toNat - acc.length) = 1 := by omega
      rw [h1]
      simp [toRecommendation]
    · rename_i h
      have hlen : (acc ++ [(⟨x.ProductID, x.Category⟩ : Recommendation)]).length
          = acc.length + 1 := by simp
      rw [ih, hlen]
      rw [hlen] at h
      obtain ⟨k, hk⟩ : ∃ k, n.toNat - acc.length = k + 2 := ⟨n.toNat - acc.length - 2, by omega⟩
      have h1 : max 1 (n.toNat - acc.length) = (k + 1) + 1 := by omega
      have h2 : max 1 (n.toNat - (acc.length + 1)) = k + 1 := by omega
      rw [h1, h2]
      simp [toRecommendation]

theorem recommendProducts_eq {R : Type} (sortSlice : List ProductInfo → List ProductInfo)
    (userProducts : GoMap R) (categories : ProductCategories)
    (categoryProducts : CategoryProducts) (productPopularity : GoMap Int)
    (preferredCategories : List String) (numRecommendations : Int) :
    recommendProducts sortSlice userProducts categories categoryProducts productPopularity
        preferredCategories numRecommendations
      = ((sortSlice (candidates userProducts categoryProducts productPopularity
            preferredCategories)).take (emitBound numRecommendations)).map toRecommendation := by
  unfold recommendProducts
  simp only [emitLoop_eq, candidates, emitBound]
  simp

theorem sinkLeft_perm (x : ProductInfo) (l : List ProductInfo) :
    (sinkLeft x l).Perm (x :: l) := by
  induction l with
  | nil => simp [sinkLeft]
  | cons y rest ih =>
    unfold sinkLeft
    split
    · exact (List.Perm.cons y ih).trans (List.Perm.swap x y rest)
    · exact List.Perm.refl _

theorem sinkLeft_sorted (x : ProductInfo) (l : List ProductInfo)
    (h : l.Pairwise (fun a b => a.Popularity ≤ b.Popularity)) :
    (sinkLeft x l).Pairwise (fun a b => a.Popularity ≤ b.Popularity) := by
  induction l with
  | nil => simp [sinkLeft]
  | cons y rest ih =>
    have hy := (List.pairwise_cons.mp h).1
    have hrest := (List.pairwise_cons.mp h).2
    unfold sinkLeft
    split
    · rename_i hlt
      unfold less at hlt
      refine List.pairwise_cons.mpr ⟨?_, ih hrest⟩
      intro z hz
      rcases List.mem_cons.mp ((sinkLeft_perm x rest).subset hz) with hzx | hzr
      · subst hzx
        omega
      · exact hy z hzr
    · rename_i hlt
      unfold less at hlt
      refine List.pairwise_cons.mpr ⟨?_, h⟩
      intro z hz
      rcases List.mem_cons.mp hz with hzy | hzr
      · subst hzy
        omega
      · have := hy z hzr
        omega

theorem insertionSort_isSliceSort : IsSliceSort insertionSort := by
  have key : ∀ (l acc : List ProductInfo),
      acc.Pairwise (fun a b => a.Popularity ≤ b.Popularity) →
      (l.foldl (fun sortedRev x => sinkLeft x sortedRev) acc).Perm (l.reverse ++ acc) ∧
      (l.foldl (fun sortedRev x => sinkLeft x sortedRev) acc).Pairwise
        (fun a b => a.Popularity ≤ b.Popularity) := by
    intro l
    induction l with
    | nil => intro acc h; exact ⟨by simp, h⟩
    | cons x rest ih =>
      intro acc h
      obtain ⟨hp, hs⟩ := ih (sinkLeft x acc) (sinkLeft_sorted x acc h)
      refine ⟨?_, hs⟩
      simp only [List.foldl_cons, List.reverse_cons, List.append_assoc, List.singleton_append]
      exact hp.trans (List.Perm.append_left _ (sinkLeft_perm x acc))
  intro l
  obtain ⟨hp, hs⟩ := key l [] List.Pairwise.nil
  constructor
  · unfold insertionSort
    refine (List.reverse_perm _).trans (hp.trans ?_)
    simp
  · unfold insertionSort
    rw [List.pairwise_reverse]
    refine hs.imp ?_
    intro a b hab
    unfold less
    omega

/-! ## The invariant of the candidate loops -/

theorem mem_scannedPairs (categoryProducts : CategoryProducts) (preferredCategories : List String)
    (category product : String) :
    (category, product) ∈ scannedPairs categoryProducts preferredCategories
      ↔ category ∈ preferredCategories ∧ product ∈ (categoryProducts.get? category).getD [] := by
  induction preferredCategories with
  | nil => simp [scannedPairs]
  | cons c rest ih =>
    simp only [scannedPairs, List.mem_append, List.mem_map, Prod.mk.injEq, ih, List.mem_cons]
    constructor
    · rintro (⟨p, hp, hc, rfl⟩ | ⟨hc, hp⟩)
      · exact ⟨Or.inl hc.symm, hc ▸ hp⟩
      · exact ⟨Or.inr hc, hp⟩
    · rintro ⟨hc | hc, hp⟩
      · subst hc
        exact Or.inl ⟨product, hp, rfl, rfl⟩
      · exact Or.inr ⟨hc, hp⟩

theorem ownedSet_get? {R : Type} (userProducts : GoMap R) (product : String) :
    ((ownedSet userProducts).get? product = some true ∧ product ∈ userProducts.keys)
      ∨ ((ownedSet userProducts).get? product = none ∧ product ∉ userProducts.keys) := by
  have key : ∀ (l : GoMap R) (acc : GoMap Bool),
      ((acc.get? product = some true ∧ (product ∈ acc.keys ∨ product ∈ l.keys))
        ∨ (acc.get? product = none ∧ True)) →
      (((l.foldl (fun productSet entry => productSet.set entry.1 true) acc).get? product
            = some true ∧ (product ∈ acc.keys ∨ product ∈ l.keys))
        ∨ ((l.foldl (fun productSet entry => productSet.set entry.1 true) acc).get? product
            = none ∧ product ∉ acc.keys ∧ product ∉ l.keys)) := by
    intro l
    induction l with
    | nil =>
      intro acc h
      rcases h with h | h
      · exact Or.inl h
      · refine Or.inr ⟨h.1, (GoMap.get?_eq_none_iff acc product).mp h.1, ?_⟩
        simp [GoMap.keys]
    | cons e rest ih =>
      intro acc h
      simp only [List.foldl_cons]
      by_cases he : e.1 = product
      · have h1 : (acc.set e.1 true).get? product = some true := by
          rw [he]; exact GoMap.get?_set_self _ _ _
        have h2 := ih (acc.set e.1 true)
          (Or.inl ⟨h1, Or.inl ((GoMap.mem_keys_set _ _ _ _).mpr (Or.inl he.symm))⟩)
        rcases h2 with h2 | h2
        · refine Or.inl ⟨h2.1, Or.inr ?_⟩
          simp [GoMap.keys, he.symm]
        · exact absurd ((GoMap.mem_keys_set _ _ _ _).mpr (Or.inl he.symm)) h2.2.1
      · have h1 : (acc.set e.1 true).get? product = acc.get? product :=
          GoMap.get?_set_ne _ _ he
        have hk : product ∈ (acc.set e.1 true).keys ↔ product ∈ acc.keys := by
          rw [GoMap.mem_keys_set]
          constructor
          · rintro (h | h)
            · exact absurd h.symm he
            · exact h
          · exact Or.inr
        have hr : product ∈ GoMap.keys (e :: rest) ↔ product ∈ GoMap.keys rest := by
          simp only [GoMap.keys, List.map_cons, List.mem_cons]
          constructor
          · rintro (h | h)
            · exact absurd h.symm he
            · exact h
          · exact Or.inr
        have h3 : (((acc.set e.1 true).get? product = some true
              ∧ (product ∈ (acc.set e.1 true).keys ∨ product ∈ GoMap.keys rest))
            ∨ ((acc.set e.1 true).get? product = none ∧ True)) := by
          rw [h1]
          rcases h with h | h
          · refine Or.inl ⟨h.1, Or.inl ?_⟩
            rw [hk, ← GoMap.get?_isSome_iff, h.1]
            rfl
          · exact Or.inr h
        rcases ih (acc.set e.1 true) h3 with h2 | h2
        · refine Or.inl ⟨h2.1, ?_⟩
          rw [hr, ← hk]
          exact h2.2
        · refine Or.inr ⟨h2.1, ?_, ?_⟩
          · rw [← hk]; exact h2.2.1
          · rw [hr]; exact h2.2.2
  rcases key userProducts [] (Or.inr ⟨rfl, trivial⟩) with h | h
  · refine Or.inl ⟨h.1, ?_⟩
    rcases h.2 with h2 | h2
    · simp [GoMap.keys] at h2
    · exact h2
  · exact Or.inr ⟨h.1, h.2.2⟩

theorem ScanInv.step {owned : List String} {productPopularity : GoMap Int}
    {seen : List (String × String)} {st : GoMap Bool × List ProductInfo}
    (h : ScanInv owned productPopularity seen st) (category product : String) :
    ScanInv owned productPopularity (seen ++ [(category, product)])
      (scanProduct productPopularity category st product) := by
  have hmono : ScanInv owned productPopularity (seen ++ [(category, product)]) st ↔
      (product ∉ owned → product ∈ st.2.map ProductInfo.ProductID) := by
    constructor
    · intro h1 hp
      exact (h1.ids product).mpr ⟨by simp, hp⟩
    · intro h1
      refine ⟨h.vals, h.keys, h.nodup, ?_, ?_⟩
      · intro p
        rw [h.ids p]
        simp only [List.map_append, List.map_cons, List.map_nil, List.mem_append,
          List.mem_singleton]
        constructor
        · rintro ⟨h2, h3⟩
          exact ⟨Or.inl h2, h3⟩
        · rintro ⟨h2 | h2, h3⟩
          · exact ⟨h2, h3⟩
          · subst h2
            exact (h.ids p).mp (h1 h3)
      · intro x hx
        exact ⟨(h.info x hx).1, List.mem_append_left _ (h.info x hx).2⟩
  unfold scanProduct
  split
  · rename_i h1
    rw [hmono]
    intro hp
    have h2 : (st.1.get? product).isSome = true := by
      cases hg : st.1.get? product with
      | none => rw [hg] at h1; simp at h1
      | some v => rfl
    rcases (h.keys product).mp h2 with h3 | h3
    · exact absurd h3 hp
    · exact h3
  · split
    · rename_i h1 h2
      rw [hmono]
      intro hp
      rcases (h.keys product).mp h2 with h3 | h3
      · exact absurd h3 hp
      · exact h3
    · rename_i h1 h2
      have hnew : ¬ (product ∈ owned ∨ product ∈ st.2.map ProductInfo.ProductID) :=
        fun hc => h2 ((h.keys product).mpr hc)
      have hno : product ∉ owned := fun hc => hnew (Or.inl hc)
      have hni : product ∉ st.2.map ProductInfo.ProductID := fun hc => hnew (Or.inr hc)
      refine ⟨?_, ?_, ?_, ?_, ?_⟩
      · intro p v hv
        by_cases hp : product = p
        · subst hp
          rw [GoMap.get?_set_self] at hv
          exact (Option.some.inj hv).symm
        · rw [GoMap.get?_set_ne _ _ hp] at hv
          exact h.vals p v hv
      · intro p
        by_cases hp : product = p
        · subst hp
          simp [GoMap.get?_set_self]
        · have hp1 : ¬ p = product := fun hc => hp hc.symm
          simp only [GoMap.get?_set_ne _ _ hp, h.keys p, List.map_append, List.map_cons,
            List.map_nil, List.mem_append, List.mem_singleton, hp1, or_false]
      · simp only [List.map_append, List.map_cons, List.map_nil]
        rw [List.nodup_append]
        refine ⟨h.nodup, by simp, ?_⟩
        intro a ha hb
        rw [List.mem_singleton] at hb
        exact hni (hb ▸ ha)
      · intro p
        simp only [List.map_append, List.map_cons, List.map_nil, List.mem_append,
          List.mem_singleton, h.ids p]
        constructor
        · rintro (⟨h3, h4⟩ | h3)
          · exact ⟨Or.inl h3, h4⟩
          · exact ⟨Or.inr h3, h3 ▸ hno⟩
        · rintro ⟨h3 | h3, h4⟩
          · exact Or.inl ⟨h3, h4⟩
          · exact Or.inr h3
      · intro x hx
        rcases List.mem_append.mp hx with hx | hx
        · exact ⟨(h.info x hx).1, List.mem_append_left _ (h.info x hx).2⟩
        · rw [List.mem_singleton] at hx
          subst hx
          exact ⟨rfl, by simp⟩

theorem ScanInv.inner {owned : List String} {productPopularity : GoMap Int}
    (category : String) (l : List String) :
    ∀ {seen : List (String × String)} {st : GoMap Bool × List ProductInfo},
      ScanInv owned productPopularity seen st →
      ScanInv owned productPopularity (seen ++ l.map (fun product => (category, product)))
        (l.foldl (scanProduct productPopularity category) st) := by
  induction l with
  | nil => intro seen st h; simpa using h
  | cons p rest ih =>
    intro seen st h
    have h1 := ih (h.step category p)
    simpa [List.append_assoc] using h1

theorem ScanInv.outer {owned : List String} {productPopularity : GoMap Int}
    (categoryProducts : CategoryProducts) (preferredCategories : List String) :
    ∀ {seen : List (String × String)} {st : GoMap Bool × List ProductInfo},
      ScanInv owned productPopularity seen st →
      ScanInv owned productPopularity (seen ++ scannedPairs categoryProducts preferredCategories)
        (scanCategories categoryProducts productPopularity preferredCategories st) := by
  induction preferredCategories with
  | nil => intro seen st h; simpa [scannedPairs, scanCategories] using h
  | cons c rest ih =>
    intro seen st h
    have h1 := ih (h.inner c ((categoryProducts.get? c).getD []))
    simpa [scannedPairs, scanCategories, List.append_assoc] using h1

theorem ScanInv.init {R : Type} (userProducts : GoMap R) (productPopularity : GoMap Int) :
    ScanInv userProducts.keys productPopularity [] (ownedSet userProducts, []) := by
  refine ⟨?_, ?_, by simp, by simp, by simp⟩
  · intro p v hv
    rcases ownedSet_get? userProducts p with h | h
    · simp only [h.1] at hv
      exact (Option.some.inj hv).symm
    · simp only [h.1] at hv
      cases hv
  · intro p
    rcases ownedSet_get? userProducts p with h | h
    · simp [h.1, h.2]
    · simp [h.1, h.2]

theorem candidates_inv {R : Type} (userProducts : GoMap R) (categoryProducts : CategoryProducts)
    (productPopularity : GoMap Int) (preferredCategories : List String) :
    ScanInv userProducts.keys productPopularity
      (scannedPairs categoryProducts preferredCategories)
      (scanCategories categoryProducts productPopularity preferredCategories
        (ownedSet userProducts, [])) := by
  have h := (ScanInv.init userProducts productPopularity).outer categoryProducts
    preferredCategories
  simpa using h

theorem candidates_nodup {R : Type} (userProducts : GoMap R) (categoryProducts : CategoryProducts)
    (productPopularity : GoMap Int) (preferredCategories : List String) :
    ((candidates userProducts categoryProducts productPopularity preferredCategories).map
      ProductInfo.ProductID).Nodup :=
  (candidates_inv userProducts categoryProducts productPopularity preferredCategories).nodup

theorem mem_candidates_ids {R : Type} (userProducts : GoMap R)
    (categoryProducts : CategoryProducts) (productPopularity : GoMap Int)
    (preferredCategories : List String) (product : String) :
    product ∈ (candidates userProducts categoryProducts productPopularity
        preferredCategories).map ProductInfo.ProductID
      ↔ Eligible userProducts categoryProducts preferredCategories product := by
  have h := (candidates_inv userProducts categoryProducts productPopularity
    preferredCategories).ids product
  unfold candidates
  rw [h]
  unfold Eligible
  simp only [List.mem_map, Prod.exists, exists_eq_right]
  constructor
  · rintro ⟨⟨c, hc⟩, hp⟩
    exact ⟨⟨c, (mem_scannedPairs _ _ _ _).mp hc⟩, hp⟩
  · rintro ⟨⟨c, hc⟩, hp⟩
    exact ⟨⟨c, (mem_scannedPairs _ _ _ _).mpr hc⟩, hp⟩

theorem candidates_info {R : Type} (userProducts : GoMap R)
    (categoryProducts : CategoryProducts) (productPopularity : GoMap Int)
    (preferredCategories : List String) (x : ProductInfo)
    (hx : x ∈ candidates userProducts categoryProducts productPopularity preferredCategories) :
    x.Popularity = popularityOf productPopularity x.ProductID
      ∧ x.Category ∈ preferredCategories
      ∧ x.ProductID ∈ (categoryProducts.get? x.Category).getD [] := by
  have h := (candidates_inv userProducts categoryProducts productPopularity
    preferredCategories).info x hx
  exact ⟨h.1, (mem_scannedPairs _ _ _ _).mp h.2⟩

theorem mem_eligibleProducts {R : Type} (userProducts : GoMap R)
    (categoryProducts : CategoryProducts) (preferredCategories : List String)
    (product : String) :
    product ∈ eligibleProducts userProducts categoryProducts preferredCategories
      ↔ Eligible userProducts categoryProducts preferredCategories product := by
  simp only [eligibleProducts, Eligible, List.mem_dedup, List.mem_filter, List.mem_flatMap,
    decide_eq_true_eq]

theorem candidates_perm_eligible {R : Type} (userProducts : GoMap R)
    (categoryProducts : CategoryProducts) (productPopularity : GoMap Int)
    (preferredCategories : List String) :
    ((candidates userProducts categoryProducts productPopularity preferredCategories).map
      ProductInfo.ProductID).Perm
      (eligibleProducts userProducts categoryProducts preferredCategories) := by
  have hn : (eligibleProducts userProducts categoryProducts preferredCategories).Nodup :=
    List.nodup_dedup _
  rw [List.perm_ext_iff_of_nodup (candidates_nodup _ _ _ _) hn]
  intro p
  rw [mem_candidates_ids, mem_eligibleProducts]

theorem candidates_length {R : Type} (userProducts : GoMap R)
    (categoryProducts : CategoryProducts) (productPopularity : GoMap Int)
    (preferredCategories : List String) :
    (candidates userProducts categoryProducts productPopularity preferredCategories).length
      = eligibleCount userProducts categoryProducts preferredCategories := by
  rw [← List.length_map _ ProductInfo.ProductID]
  exact (candidates_perm_eligible userProducts categoryProducts productPopularity
    preferredCategories).length_eq

/-- Membership in the output, in terms of the sorted candidate list. -/
theorem mem_recommendProducts {R : Type} (sortSlice : List ProductInfo → List ProductInfo)
    (userProducts : GoMap R) (categories : ProductCategories)
    (categoryProducts : CategoryProducts) (productPopularity : GoMap Int)
    (preferredCategories : List String) (numRecommendations : Int) (r : Recommendation)
    (hr : r ∈ recommendProducts sortSlice userProducts categories categoryProducts
      productPopularity preferredCategories numRecommendations) :
    ∃ x ∈ (sortSlice (candidates userProducts categoryProducts productPopularity
        preferredCategories)).take (emitBound numRecommendations), toRecommendation x = r := by
  rw [recommendProducts_eq] at hr
  exact List.mem_map.mp hr

/-- The product identifiers of the output are the first identifiers of the sorted
candidate list. -/
theorem recommendProducts_ids {R : Type} (sortSlice : List ProductInfo → List ProductInfo)
    (userProducts : GoMap R) (categories : ProductCategories)
    (categoryProducts : CategoryProducts) (productPopularity : GoMap Int)
    (preferredCategories : List String) (numRecommendations : Int) :
    (recommendProducts sortSlice userProducts categories categoryProducts productPopularity
        preferredCategories numRecommendations).map Recommendation.ProductID
      = ((sortSlice (candidates userProducts categoryProducts productPopularity
            preferredCategories)).map ProductInfo.ProductID).take
          (emitBound numRecommendations) := by
  rw [recommendProducts_eq, List.map_map, ← List.map_take]
  rfl

theorem sorted_ids_perm {R : Type} {sortSlice : List ProductInfo → List ProductInfo}
    (hsort : IsSliceSort sortSlice) (userProducts : GoMap R)
    (categoryProducts : CategoryProducts) (productPopularity : GoMap Int)
    (preferredCategories : List String) :
    ((sortSlice (candidates userProducts categoryProducts productPopularity
        preferredCategories)).map ProductInfo.ProductID).Perm
      ((candidates userProducts categoryProducts productPopularity
        preferredCategories).map ProductInfo.ProductID) :=
  (hsort _).1.map _

theorem sorted_pairwise {R : Type} {sortSlice : List ProductInfo → List ProductInfo}
    (hsort : IsSliceSort sortSlice) (userProducts : GoMap R)
    (categoryProducts : CategoryProducts) (productPopularity : GoMap Int)
    (preferredCategories : List String) :
    (sortSlice (candidates userProducts categoryProducts productPopularity
        preferredCategories)).Pairwise
      (fun a b => popularityOf productPopularity b.ProductID
        ≤ popularityOf productPopularity a.ProductID) := by
  have hs := (hsort (candidates userProducts categoryProducts productPopularity
    preferredCategories)).2
  have hp := (hsort (candidates userProducts categoryProducts productPopularity
    preferredCategories)).1
  refine hs.imp_of_mem ?_
  intro a b ha hb hab
  have h1 := (candidates_info userProducts categoryProducts productPopularity
    preferredCategories a (hp.subset ha)).1
  have h2 := (candidates_info userProducts categoryProducts productPopularity
    preferredCategories b (hp.subset hb)).1
  unfold less at hab
  rw [← h1, ← h2]
  omega

theorem map_eq_of_injOn {α β : Type} (f : α → β) :
    ∀ (l1 l2 : List α), l1.map f = l2.map f →
      (∀ a ∈ l1, ∀ b ∈ l2, f a = f b → a = b) → l1 = l2 := by
  intro l1
  induction l1 with
  | nil =>
    intro l2 h _
    cases l2 with
    | nil => rfl
    | cons b l2 => simp at h
  | cons a l1 ih =>
    intro l2 h hinj
    cases l2 with
    | nil => simp at h
    | cons b l2 =>
      simp only [List.map_cons, List.cons.injEq] at h
      have hab : a = b := hinj a (List.mem_cons_self _ _) b (List.mem_cons_self _ _) h.1
      have hl : l1 = l2 := ih l2 h.2 (fun x hx y hy hxy =>
        hinj x (List.mem_cons_of_mem _ hx) y (List.mem_cons_of_mem _ hy) hxy)
      rw [hab, hl]

theorem eligible_perm {R : Type} (userProducts : GoMap R) (categoryProducts : CategoryProducts)
    {prefs1 prefs2 : List String} (hperm : prefs1.Perm prefs2) (product : String) :
    Eligible userProducts categoryProducts prefs1 product
      ↔ Eligible userProducts categoryProducts prefs2 product := by
  unfold Eligible
  constructor
  · rintro ⟨⟨c, hc, hp⟩, ho⟩
    exact ⟨⟨c, hperm.subset hc, hp⟩, ho⟩
  · rintro ⟨⟨c, hc, hp⟩, ho⟩
    exact ⟨⟨c, hperm.symm.subset hc, hp⟩, ho⟩

/-- The popularity values along the sorted candidate list do not depend on the order of
the preferred categories. -/
theorem sorted_pops_perm_invariant {R : Type} {sortSlice : List ProductInfo → List ProductInfo}
    (hsort : IsSliceSort sortSlice) (userProducts : GoMap R)
    (categoryProducts : CategoryProducts) (productPopularity : GoMap Int)
    {prefs1 prefs2 : List String} (hperm : prefs1.Perm prefs2) :
    ((sortSlice (candidates userProducts categoryProducts productPopularity prefs1)).map
        ProductInfo.ProductID).map (popularityOf productPopularity)
      = ((sortSlice (candidates userProducts categoryProducts productPopularity prefs2)).map
        ProductInfo.ProductID).map (popularityOf productPopularity) := by
  have hids : ((candidates userProducts categoryProducts productPopularity prefs1).map
      ProductInfo.ProductID).Perm
      ((candidates userProducts categoryProducts productPopularity prefs2).map
        ProductInfo.ProductID) := by
    rw [List.perm_ext_iff_of_nodup (candidates_nodup _ _ _ _) (candidates_nodup _ _ _ _)]
    intro p
    rw [mem_candidates_ids, mem_candidates_ids]
    exact eligible_perm userProducts categoryProducts hperm p
  have h1 := sorted_ids_perm hsort userProducts categoryProducts productPopularity prefs1
  have h2 := sorted_ids_perm hsort userProducts categoryProducts productPopularity prefs2
  have hp := ((h1.trans hids).trans h2.symm).map (popularityOf productPopularity)
  have hs1 := sorted_pairwise hsort userProducts categoryProducts productPopularity prefs1
  have hs2 := sorted_pairwise hsort userProducts categoryProducts productPopularity prefs2
  refine List.eq_of_perm_of_sorted (r := fun (a b : Int) => b ≤ a) hp ?_ ?_
  · rw [List.map_map]
    exact List.pairwise_map.mpr hs1
  · rw [List.map_map]
    exact List.pairwise_map.mpr hs2

/-! ## Lemmas on the preference resolver -/

theorem countCategory_ok (categories : ProductCategories) (m : GoMap Int) (product : String)
    (h : CountsOK m) : CountsOK (countCategory categories m product) := by
  unfold countCategory
  cases hc : categories.get? product with
  | none => exact h
  | some category =>
    refine ⟨GoMap.wf_set _ _ _ h.1, ?_⟩
    intro c v hv
    by_cases hcc : category = c
    · subst hcc
      simp only [GoMap.get?_set_self, Option.some.injEq] at hv
      cases hg : m.get? category with
      | none => rw [hg] at hv; simp at hv; omega
      | some w =>
        rw [hg] at hv
        have := h.2 category w hg
        simp at hv
        omega
    · simp only [] at hv
      rw [GoMap.get?_set_ne _ _ hcc] at hv
      exact h.2 c v hv

theorem countCategory_get (categories : ProductCategories) (m : GoMap Int)
    (product c : String) :
    ((countCategory categories m product).get? c).getD 0
      = (m.get? c).getD 0 + (if categories.get? product = some c then 1 else 0) := by
  unfold countCategory
  cases hc : categories.get? product with
  | none => simp
  | some category =>
    by_cases hcc : category = c
    · subst hcc
      simp [GoMap.get?_set_self]
    · simp only []
      rw [GoMap.get?_set_ne _ _ hcc]
      simp [hcc]

theorem tally_fold {R : Type} (categories : ProductCategories) (l : GoMap R) :
    ∀ (m : GoMap Int), CountsOK m →
      CountsOK (l.foldl (fun counts entry => countCategory categories counts entry.1) m)
      ∧ ∀ c, ((l.foldl (fun counts entry => countCategory categories counts entry.1) m).get?
            c).getD 0
          = (m.get? c).getD 0
            + ((l.map Prod.fst).countP (fun product => categories.get? product = some c) : Nat) := by
  induction l with
  | nil => intro m h; exact ⟨h, by simp⟩
  | cons e rest ih =>
    intro m h
    obtain ⟨h1, h2⟩ := ih (countCategory categories m e.1) (countCategory_ok categories m e.1 h)
    refine ⟨h1, ?_⟩
    intro c
    simp only [List.foldl_cons, h2 c, countCategory_get, List.map_cons, List.countP_cons]
    by_cases hc : categories.get? e.1 = some c
    · simp [hc]; omega
    · simp [hc]

theorem calculate_ok {R : Type} (userProducts : GoMap R) (categories : ProductCategories) :
    CountsOK (calculateUserCategoryPreferences userProducts categories)
      ∧ ∀ c, ((calculateUserCategoryPreferences userProducts categories).get? c).getD 0
          = (categoryTally userProducts categories c : Int) := by
  obtain ⟨h1, h2⟩ := tally_fold categories userProducts [] ⟨by simp [GoMap.WF, GoMap.keys], by
    intro c v hv; simp [GoMap.get?] at hv⟩
  refine ⟨h1, ?_⟩
  intro c
  have := h2 c
  simpa [calculateUserCategoryPreferences, categoryTally, GoMap.keys, GoMap.get?] using this

theorem maxCount_fold (l : GoMap Int) :
    ∀ (init : Int),
      init ≤ l.foldl (fun maxCount entry => if entry.2 > maxCount then entry.2 else maxCount) init
      ∧ (∀ e ∈ l, e.2 ≤
          l.foldl (fun maxCount entry => if entry.2 > maxCount then entry.2 else maxCount) init)
      ∧ (l.foldl (fun maxCount entry => if entry.2 > maxCount then entry.2 else maxCount) init
            = init
          ∨ ∃ e ∈ l, e.2 =
            l.foldl (fun maxCount entry => if entry.2 > maxCount then entry.2 else maxCount)
              init) := by
  induction l with
  | nil => intro init; simp
  | cons e rest ih =>
    intro init
    simp only [List.foldl_cons, List.mem_cons, forall_eq_or_imp, exists_eq_or_imp]
    obtain ⟨h1, h2, h3⟩ := ih (if e.2 > init then e.2 else init)
    by_cases hgt : e.2 > init
    · rw [if_pos hgt] at h1 h2 h3 ⊢
      refine ⟨by omega, ⟨h1, h2⟩, ?_⟩
      rcases h3 with h3 | h3
      · exact Or.inr (Or.inl h3.symm)
      · exact Or.inr (Or.inr h3)
    · rw [if_neg hgt] at h1 h2 h3 ⊢
      refine ⟨h1, ⟨by omega, h2⟩, ?_⟩
      rcases h3 with h3 | h3
      · exact Or.inl h3
      · exact Or.inr (Or.inr h3)

theorem preferred_fold (mx : Int) (l : GoMap Int) :
    ∀ (acc : List String) (c : String),
      c ∈ l.foldl (fun preferredCategories entry =>
          if entry.2 = mx then preferredCategories ++ [entry.1] else preferredCategories) acc
        ↔ c ∈ acc ∨ (c, mx) ∈ l := by
  induction l with
  | nil => intro acc c; simp
  | cons e rest ih =>
    intro acc c
    obtain ⟨k, v⟩ := e
    simp only [List.foldl_cons, ih, List.mem_cons, Prod.mk.injEq]
    by_cases hv : v = mx
    · simp only [hv, if_true, List.mem_append, List.mem_singleton, and_true]
      tauto
    · have hv1 : ¬ mx = v := fun h => hv h.symm
      simp only [hv, if_false, hv1, and_false, false_or]

theorem mem_preferred (m : GoMap Int) (h : m.WF) (c : String) :
    c ∈ getUserPreferredCategories m ↔ m.get? c = some (maxCountOf m) := by
  unfold getUserPreferredCategories
  simp only [preferred_fold, List.not_mem_nil, false_or]
  exact GoMap.mem_iff_get? m h c _

/-! ## Lemmas on the catalog index -/

theorem indexProduct_pop (categories : ProductCategories) (st : CategoryProducts × GoMap Int)
    (product p : String) :
    ((indexProduct categories st product).2.get? p).getD 0
      = (st.2.get? p).getD 0
        + (if product = p ∧ (categories.get? product).isSome = true then 1 else 0) := by
  unfold indexProduct
  cases hc : categories.get? product with
  | none => simp
  | some category =>
    by_cases hp : product = p
    · subst hp
      simp [GoMap.get?_set_self]
    · simp only []
      rw [GoMap.get?_set_ne _ _ hp]
      simp [hp]

theorem indexProduct_cat (categories : ProductCategories) (st : CategoryProducts × GoMap Int)
    (product c p : String) :
    ((((indexProduct categories st product).1.get? c).getD []).count p : Int)
      = (((st.1.get? c).getD []).count p : Int)
        + (if product = p ∧ categories.get? product = some c then 1 else 0) := by
  unfold indexProduct
  cases hc : categories.get? product with
  | none => simp
  | some category =>
    by_cases hcc : category = c
    · subst hcc
      simp only [GoMap.get?_set_self, Option.getD_some, List.count_append, Nat.cast_add,
        and_true]
      by_cases hp : product = p
      · subst hp
        simp
      · have h0 : List.count p [product] = 0 :=
          List.count_eq_zero_of_not_mem (by
            rw [List.mem_singleton]
            exact fun h => hp h.symm)
        simp [hp, h0]
    · simp only []
      rw [GoMap.get?_set_ne _ _ hcc]
      simp [hcc]

theorem indexProduct_none (categories : ProductCategories) (st : CategoryProducts × GoMap Int)
    (product p : String) (hp : categories.get? p = none) (hst : st.2.get? p = none) :
    (indexProduct categories st product).2.get? p = none := by
  unfold indexProduct
  cases hc : categories.get? product with
  | none => exact hst
  | some category =>
    have hne : product ≠ p := by
      intro h
      rw [h, hp] at hc
      cases hc
    simp only []
    rw [GoMap.get?_set_ne _ _ hne]
    exact hst

theorem inner_fold_count {σ R : Type} (step : σ → String → σ) (μ : σ → Int)
    (good : String → Prop) [DecidablePred good] (p : String)
    (hstep : ∀ s product, μ (step s product)
      = μ s + (if product = p ∧ good product then 1 else 0)) (l : GoMap R) :
    l.WF → ∀ s, μ (l.foldl (fun st entry => step st entry.1) s)
      = μ s + (if p ∈ l.keys ∧ good p then 1 else 0) := by
  induction l with
  | nil => intro _ s; simp [GoMap.keys]
  | cons e rest ih =>
    intro hwf s
    have hrest : GoMap.WF rest := by
      simp only [GoMap.WF, GoMap.keys, List.map_cons, List.nodup_cons] at hwf
      exact hwf.2
    have he : e.1 ∉ GoMap.keys rest := by
      simp only [GoMap.WF, GoMap.keys, List.map_cons, List.nodup_cons] at hwf
      exact hwf.1
    simp only [List.foldl_cons]
    rw [ih hrest (step s e.1), hstep s e.1]
    have hk : p ∈ GoMap.keys (e :: rest) ↔ p = e.1 ∨ p ∈ GoMap.keys rest := by
      simp [GoMap.keys]
    by_cases hp : e.1 = p
    · subst hp
      by_cases hg : good e.1
      · simp [hk, he, hg]
      · simp [hg]
    · have hp1 : ¬ p = e.1 := fun h => hp h.symm
      simp [hk, hp, hp1]

theorem nested_fold_count {σ R : Type} (step : σ → String → σ) (μ : σ → Int)
    (good : String → Prop) [DecidablePred good] (p : String)
    (hstep : ∀ s product, μ (step s product)
      = μ s + (if product = p ∧ good product then 1 else 0)) (ratings : RatingsData R) :
    (∀ user ∈ ratings, user.2.WF) →
    ∀ s, μ (ratings.foldl
          (fun st user => user.2.foldl (fun st entry => step st entry.1) st) s)
      = μ s + (if good p then (purchaserCount ratings p : Int) else 0) := by
  induction ratings with
  | nil => intro _ s; simp [purchaserCount]
  | cons u rest ih =>
    intro hwf s
    have hu : u.2.WF := hwf u (List.mem_cons_self _ _)
    have hrest : ∀ user ∈ rest, user.2.WF := fun user h => hwf user (List.mem_cons_of_mem _ h)
    simp only [List.foldl_cons]
    rw [ih hrest, inner_fold_count step μ good p hstep u.2 hu s]
    by_cases hg : good p
    · by_cases hm : p ∈ u.2.keys
      · simp [hg, hm, purchaserCount, List.countP_cons]
        omega
      · simp [hg, hm, purchaserCount, List.countP_cons]
    · simp [hg]

theorem nested_fold_invariant {σ R : Type} (step : σ → String → σ) (P : σ → Prop)
    (hstep : ∀ s product, P s → P (step s product)) (ratings : RatingsData R) :
    ∀ s, P s → P (ratings.foldl
      (fun st user => user.2.foldl (fun st entry => step st entry.1) st) s) := by
  have inner : ∀ (l : GoMap R) s, P s → P (l.foldl (fun st entry => step st entry.1) s) := by
    intro l
    induction l with
    | nil => intro s h; exact h
    | cons e rest ih => intro s h; exact ih _ (hstep s e.1 h)
  induction ratings with
  | nil => intro s h; exact h
  | cons u rest ih => intro s h; exact ih _ (inner u.2 s h)

/-! ## Lemmas on the purchased-products payload -/

theorem purchasedLoop_eq {R : Type} (categories : ProductCategories) (l : GoMap R) :
    ∀ acc, purchasedLoop categories l acc
      = acc ++ l.map (fun entry => ⟨entry.1, entry.2, resolvedCategory categories entry.1⟩) := by
  induction l with
  | nil => intro acc; simp [purchasedLoop]
  | cons e rest ih =>
    intro acc
    obtain ⟨k, v⟩ := e
    simp only [purchasedLoop, ih, List.map_cons, List.append_assoc, List.singleton_append]
    rfl

/-! ## The candidate ranker -/

/-- C1: no product of the list returned by `recommendProducts` is a key of `userProducts`. -/
theorem recommendProducts_excludes_owned {R : Type}
    (sortSlice : List ProductInfo → List ProductInfo) (hsort : IsSliceSort sortSlice)
    (userProducts : GoMap R) (categories : ProductCategories)
    (categoryProducts : CategoryProducts) (productPopularity : GoMap Int)
    (preferredCategories : List String) (numRecommendations : Int) :
    ∀ r ∈ recommendProducts sortSlice userProducts categories categoryProducts
        productPopularity preferredCategories numRecommendations,
      r.ProductID ∉ userProducts.keys := by
  intro r hr
  obtain ⟨x, hx, rfl⟩ := mem_recommendProducts _ _ _ _ _ _ _ r hr
  have hx1 := (hsort _).1.subset (List.mem_of_mem_take hx)
  have hx2 : x.ProductID ∈ (candidates userProducts categoryProducts productPopularity
      preferredCategories).map ProductInfo.ProductID := List.mem_map_of_mem _ hx1
  exact ((mem_candidates_ids _ _ _ _ _).mp hx2).2

theorem recommendProducts_excludes_owned_witness :
    IsSliceSort insertionSort ∧
      ∀ r ∈ recommendProducts insertionSort sampleUser sampleCategories sampleIndex
          samplePopularity ["Books", "Music"] 5,
        r.ProductID ∉ GoMap.keys sampleUser :=
  ⟨insertionSort_isSliceSort,
    recommendProducts_excludes_owned insertionSort insertionSort_isSliceSort sampleUser
      sampleCategories sampleIndex samplePopularity ["Books", "Music"] 5⟩

/-- C2: the list returned by `recommendProducts` has no two entries with the same
`ProductID`, whatever repetitions the category lists and the preferred categories have. -/
theorem recommendProducts_no_duplicates {R : Type}
    (sortSlice : List ProductInfo → List ProductInfo) (hsort : IsSliceSort sortSlice)
    (userProducts : GoMap R) (categories : ProductCategories)
    (categoryProducts : CategoryProducts) (productPopularity : GoMap Int)
    (preferredCategories : List String) (numRecommendations : Int) :
    ((recommendProducts sortSlice userProducts categories categoryProducts
        productPopularity preferredCategories numRecommendations).map
      Recommendation.ProductID).Nodup := by
  rw [recommendProducts_ids]
  have h1 := (sorted_ids_perm hsort userProducts categoryProducts productPopularity
    preferredCategories).nodup_iff.mpr (candidates_nodup _ _ _ _)
  exact h1.sublist (List.take_sublist _ _)

theorem recommendProducts_no_duplicates_witness :
    IsSliceSort insertionSort ∧
      ((recommendProducts insertionSort sampleUser sampleCategories sampleIndex
          samplePopularity ["Books", "Music", "Books"] 5).map
        Recommendation.ProductID).Nodup :=
  ⟨insertionSort_isSliceSort,
    recommendProducts_no_duplicates insertionSort insertionSort_isSliceSort sampleUser
      sampleCategories sampleIndex samplePopularity ["Books", "Music", "Books"] 5⟩

/-- C3: for a limit of at least 1, the length of the list returned by `recommendProducts`
is the minimum of the limit and the number of distinct eligible products. -/
theorem recommendProducts_length {R : Type}
    (sortSlice : List ProductInfo → List ProductInfo) (hsort : IsSliceSort sortSlice)
    (userProducts : GoMap R) (categories : ProductCategories)
    (categoryProducts : CategoryProducts) (productPopularity : GoMap Int)
    (preferredCategories : List String) (numRecommendations : Int)
    (hlimit : 1 ≤ numRecommendations) :
    ((recommendProducts sortSlice userProducts categories categoryProducts
        productPopularity preferredCategories numRecommendations).length : Int)
      = min numRecommendations
          (eligibleCount userProducts categoryProducts preferredCategories : Int) := by
  rw [recommendProducts_eq, List.length_map, List.length_take, (hsort _).1.length_eq,
    candidates_length]
  unfold emitBound
  omega

theorem recommendProducts_length_witness :
    IsSliceSort insertionSort ∧ (1 : Int) ≤ 2 ∧
      ((recommendProducts insertionSort sampleUser sampleCategories sampleIndex
          samplePopularity ["Books", "Music"] 2).length : Int)
        = min 2 (eligibleCount sampleUser sampleIndex ["Books", "Music"] : Int) :=
  ⟨insertionSort_isSliceSort, by decide,
    recommendProducts_length insertionSort insertionSort_isSliceSort sampleUser
      sampleCategories sampleIndex samplePopularity ["Books", "Music"] 2 (by decide)⟩

/-- C4: the list returned by `recommendProducts` is in descending order of popularity:
of two adjacent entries the earlier one has a popularity (0 without an entry) greater than
or equal to that of the later one. -/
theorem recommendProducts_sorted {R : Type}
    (sortSlice : List ProductInfo → List ProductInfo) (hsort : IsSliceSort sortSlice)
    (userProducts : GoMap R) (categories : ProductCategories)
    (categoryProducts : CategoryProducts) (productPopularity : GoMap Int)
    (preferredCategories : List String) (numRecommendations : Int) :
    (recommendProducts sortSlice userProducts categories categoryProducts
        productPopularity preferredCategories numRecommendations).Chain'
      (fun earlier later =>
        (productPopularity.get? earlier.ProductID).getD 0
          ≥ (productPopularity.get? later.ProductID).getD 0) := by
  apply List.Pairwise.chain'
  rw [recommendProducts_eq, List.pairwise_map]
  exact (sorted_pairwise hsort userProducts categoryProducts productPopularity
    preferredCategories).sublist (List.take_sublist _ _)

theorem recommendProducts_sorted_witness :
    IsSliceSort insertionSort ∧
      (recommendProducts insertionSort sampleUser sampleCategories sampleIndex
          samplePopularity ["Books", "Music"] 5).Chain'
        (fun earlier later =>
          (samplePopularity.get? earlier.ProductID).getD 0
            ≥ (samplePopularity.get? later.ProductID).getD 0) :=
  ⟨insertionSort_isSliceSort,
    @recommendProducts_sorted ℚ insertionSort insertionSort_isSliceSort sampleUser
      sampleCategories sampleIndex samplePopularity ["Books", "Music"] (5 : Int)⟩

/-- C10: every product returned by `recommendProducts` is listed under a preferred
category, and every eligible product that is not returned has a popularity less than or
equal to that of every returned product. -/
theorem recommendProducts_top_of_ranking {R : Type}
    (sortSlice : List ProductInfo → List ProductInfo) (hsort : IsSliceSort sortSlice)
    (userProducts : GoMap R) (categories : ProductCategories)
    (categoryProducts : CategoryProducts) (productPopularity : GoMap Int)
    (preferredCategories : List String) (numRecommendations : Int) :
    (∀ r ∈ recommendProducts sortSlice userProducts categories categoryProducts
        productPopularity preferredCategories numRecommendations,
      ∃ c ∈ preferredCategories, r.ProductID ∈ (categoryProducts.get? c).getD [])
    ∧ (∀ p, (∃ c ∈ preferredCategories, p ∈ (categoryProducts.get? c).getD []) →
        p ∉ userProducts.keys →
        p ∉ (recommendProducts sortSlice userProducts categories categoryProducts
          productPopularity preferredCategories numRecommendations).map
            Recommendation.ProductID →
        ∀ r ∈ recommendProducts sortSlice userProducts categories categoryProducts
            productPopularity preferredCategories numRecommendations,
          (productPopularity.get? p).getD 0 ≤ (productPopularity.get? r.ProductID).getD 0) := by
  constructor
  · intro r hr
    obtain ⟨x, hx, rfl⟩ := mem_recommendProducts _ _ _ _ _ _ _ r hr
    have hx1 := (hsort _).1.subset (List.mem_of_mem_take hx)
    have hi := candidates_info userProducts categoryProducts productPopularity
      preferredCategories x hx1
    exact ⟨x.Category, hi.2.1, hi.2.2⟩
  · intro p hp hown hnot r hr
    obtain ⟨x, hx, rfl⟩ := mem_recommendProducts _ _ _ _ _ _ _ r hr
    have hmem : p ∈ (sortSlice (candidates userProducts categoryProducts productPopularity
        preferredCategories)).map ProductInfo.ProductID :=
      (sorted_ids_perm hsort userProducts categoryProducts productPopularity
        preferredCategories).symm.subset ((mem_candidates_ids _ _ _ _ _).mpr ⟨hp, hown⟩)
    obtain ⟨y, hy, hyp⟩ := List.mem_map.mp hmem
    rw [← List.take_append_drop (emitBound numRecommendations)
      (sortSlice (candidates userProducts categoryProducts productPopularity
        preferredCategories))] at hy
    have hs := sorted_pairwise hsort userProducts categoryProducts productPopularity
      preferredCategories
    rw [← List.take_append_drop (emitBound numRecommendations)
      (sortSlice (candidates userProducts categoryProducts productPopularity
        preferredCategories))] at hs
    rcases List.mem_append.mp hy with hy1 | hy1
    · exfalso
      apply hnot
      rw [recommendProducts_ids, ← List.map_take]
      exact List.mem_map.mpr ⟨y, hy1, hyp⟩
    · have := (List.pairwise_append.mp hs).2.2 x hx y hy1
      rw [hyp] at this
      exact this

theorem recommendProducts_top_of_ranking_witness :
    IsSliceSort insertionSort ∧
    (∀ r ∈ recommendProducts insertionSort sampleUser sampleCategories sampleIndex
        samplePopularity ["Books"] 1,
      ∃ c ∈ ["Books"], r.ProductID ∈ (sampleIndex.get? c).getD []) ∧
    (∃ c ∈ ["Books"], "b3" ∈ (sampleIndex.get? c).getD []) ∧
    "b3" ∉ GoMap.keys sampleUser ∧
    "b3" ∉ (recommendProducts insertionSort sampleUser sampleCategories sampleIndex
      samplePopularity ["Books"] 1).map Recommendation.ProductID ∧
    (∀ r ∈ recommendProducts insertionSort sampleUser sampleCategories sampleIndex
        samplePopularity ["Books"] 1,
      (samplePopularity.get? "b3").getD 0 ≤ (samplePopularity.get? r.ProductID).getD 0) :=
  ⟨insertionSort_isSliceSort,
    (@recommendProducts_top_of_ranking ℚ insertionSort insertionSort_isSliceSort sampleUser
      sampleCategories sampleIndex samplePopularity ["Books"] 1).1,
    by decide, by decide, by decide,
    (@recommendProducts_top_of_ranking ℚ insertionSort insertionSort_isSliceSort sampleUser
      sampleCategories sampleIndex samplePopularity ["Books"] 1).2 "b3" (by decide)
      (by decide) (by decide)⟩

/-- C9, as stated, fails: two orders of the same two preferred categories give different
sequences of product identifiers when candidates tie in popularity. -/
theorem recommendProducts_category_order_counterexample :
    List.Perm ["Books", "Music"] ["Music", "Books"] ∧
      (recommendProducts insertionSort sampleUser sampleCategories sampleIndex
          samplePopularity ["Books", "Music"] 5).map Recommendation.ProductID
        = ["b2", "m2", "b3"] ∧
      (recommendProducts insertionSort sampleUser sampleCategories sampleIndex
          samplePopularity ["Music", "Books"] 5).map Recommendation.ProductID
        = ["m2", "b2", "b3"] ∧
      (recommendProducts insertionSort sampleUser sampleCategories sampleIndex
          samplePopularity ["Books", "Music"] 5).map Recommendation.ProductID
        ≠ (recommendProducts insertionSort sampleUser sampleCategories sampleIndex
          samplePopularity ["Music", "Books"] 5).map Recommendation.ProductID :=
  ⟨List.Perm.swap _ _ _, by decide, by decide, by decide⟩

/-- C9, amended: for two lists of preferred categories that are permutations of each
other, `recommendProducts` returns the same sequence of popularity values, and the same
sequence of product identifiers when no two eligible products have the same popularity. -/
theorem recommendProducts_category_order {R : Type}
    (sortSlice : List ProductInfo → List ProductInfo) (hsort : IsSliceSort sortSlice)
    (userProducts : GoMap R) (categories : ProductCategories)
    (categoryProducts : CategoryProducts) (productPopularity : GoMap Int)
    (prefs1 prefs2 : List String) (hperm : prefs1.Perm prefs2) (numRecommendations : Int) :
    (recommendProducts sortSlice userProducts categories categoryProducts productPopularity
        prefs1 numRecommendations).map
        (fun r => (productPopularity.get? r.ProductID).getD 0)
      = (recommendProducts sortSlice userProducts categories categoryProducts
        productPopularity prefs2 numRecommendations).map
        (fun r => (productPopularity.get? r.ProductID).getD 0)
    ∧ (((eligibleProducts userProducts categoryProducts prefs1).map
          (fun p => (productPopularity.get? p).getD 0)).Nodup →
        (recommendProducts sortSlice userProducts categories categoryProducts
          productPopularity prefs1 numRecommendations).map Recommendation.ProductID
        = (recommendProducts sortSlice userProducts categories categoryProducts
          productPopularity prefs2 numRecommendations).map Recommendation.ProductID) := by
  have hpops := sorted_pops_perm_invariant hsort userProducts categoryProducts
    productPopularity hperm
  constructor
  · have h1 : ∀ prefs, (recommendProducts sortSlice userProducts categories categoryProducts
        productPopularity prefs numRecommendations).map
          (fun r => (productPopularity.get? r.ProductID).getD 0)
        = (((sortSlice (candidates userProducts categoryProducts productPopularity
            prefs)).map ProductInfo.ProductID).map (popularityOf productPopularity)).take
          (emitBound numRecommendations) := by
      intro prefs
      rw [← List.map_take, ← recommendProducts_ids sortSlice userProducts categories,
        List.map_map]
      rfl
    rw [h1 prefs1, h1 prefs2, hpops]
  · intro hdistinct
    rw [recommendProducts_ids, recommendProducts_ids]
    congr 1
    apply map_eq_of_injOn (popularityOf productPopularity) _ _ hpops
    intro a ha b hb hab
    have ha1 := (mem_eligibleProducts _ _ _ _).mpr ((mem_candidates_ids _ _ _ _ _).mp
      ((sorted_ids_perm hsort userProducts categoryProducts productPopularity
        prefs1).subset ha))
    have hb1 := (mem_eligibleProducts _ _ _ _).mpr
      ((eligible_perm userProducts categoryProducts hperm b).mpr
        ((mem_candidates_ids _ _ _ _ _).mp
          ((sorted_ids_perm hsort userProducts categoryProducts productPopularity
            prefs2).subset hb)))
    exact List.inj_on_of_nodup_map hdistinct ha1 hb1 hab

theorem recommendProducts_category_order_witness :
    IsSliceSort insertionSort ∧ List.Perm ["Books", "Music"] ["Music", "Books"] ∧
      ((eligibleProducts sampleUser sampleIndex ["Books", "Music"]).map
        (fun p => (sampleDistinctPopularity.get? p).getD 0)).Nodup ∧
      (recommendProducts insertionSort sampleUser sampleCategories sampleIndex
          sampleDistinctPopularity ["Books", "Music"] 5).map Recommendation.ProductID
        = (recommendProducts insertionSort sampleUser sampleCategories sampleIndex
          sampleDistinctPopularity ["Music", "Books"] 5).map Recommendation.ProductID :=
  ⟨insertionSort_isSliceSort, List.Perm.swap _ _ _, by decide,
    (@recommendProducts_category_order ℚ insertionSort insertionSort_isSliceSort sampleUser
      sampleCategories sampleIndex sampleDistinctPopularity ["Books", "Music"]
      ["Music", "Books"] (List.Perm.swap _ _ _) 5).2 (by decide)⟩

/-! ## The preference resolver -/

theorem preferred_mem_iff {R : Type} (userProducts : GoMap R) (categories : ProductCategories)
    (c : String) :
    c ∈ getUserPreferredCategories (calculateUserCategoryPreferences userProducts categories)
      ↔ 0 < categoryTally userProducts categories c
        ∧ ∀ d, categoryTally userProducts categories d
            ≤ categoryTally userProducts categories c := by
  obtain ⟨hok, htally⟩ := calculate_ok userProducts categories
  obtain ⟨_, hle, hex⟩ := maxCount_fold (calculateUserCategoryPreferences userProducts
    categories) 0
  rw [mem_preferred _ hok.1]
  have hsome : ∀ d v, (calculateUserCategoryPreferences userProducts categories).get? d
      = some v → v = (categoryTally userProducts categories d : Int) ∧ 1 ≤ v
        ∧ v ≤ maxCountOf (calculateUserCategoryPreferences userProducts categories) := by
    intro d v hv
    have h1 := htally d
    rw [hv] at h1
    exact ⟨h1, hok.2 d v hv, hle (d, v) ((GoMap.mem_iff_get? _ hok.1 d v).mpr hv)⟩
  have hnone : ∀ d, (calculateUserCategoryPreferences userProducts categories).get? d
      = none → categoryTally userProducts categories d = 0 := by
    intro d hv
    have h1 := htally d
    rw [hv] at h1
    simp at h1
    omega
  constructor
  · intro hc
    obtain ⟨h1, h2, _⟩ := hsome c _ hc
    refine ⟨by omega, ?_⟩
    intro d
    cases hd : (calculateUserCategoryPreferences userProducts categories).get? d with
    | none => rw [hnone d hd]; omega
    | some v =>
      obtain ⟨h3, _, h5⟩ := hsome d v hd
      omega
  · rintro ⟨hpos, hmax⟩
    cases hc : (calculateUserCategoryPreferences userProducts categories).get? c with
    | none => rw [hnone c hc] at hpos; omega
    | some v =>
      obtain ⟨h1, h2, h3⟩ := hsome c v hc
      rcases hex with h0 | ⟨e, he, heq⟩
      · unfold maxCountOf at h3
        omega
      · obtain ⟨d, w⟩ := e
        have hd := (GoMap.mem_iff_get? _ hok.1 d w).mp he
        obtain ⟨h4, _, _⟩ := hsome d w hd
        have h5 := hmax d
        have h6 : v = maxCountOf (calculateUserCategoryPreferences userProducts
            categories) := by
          simp only at heq
          unfold maxCountOf
          unfold maxCountOf at h3
          omega
        rw [h6]

/-- C5: the preferred categories are exactly the categories that at least one of the
user's products maps to and whose number of the user's products is the largest over all
categories; the list is empty exactly when none of the user's products has a category. -/
theorem preferred_categories_are_max_tally {R : Type} (userProducts : GoMap R)
    (categories : ProductCategories) :
    (∀ c, c ∈ getUserPreferredCategories
          (calculateUserCategoryPreferences userProducts categories)
        ↔ 0 < userProducts.keys.countP (fun product => categories.get? product = some c)
          ∧ ∀ d, userProducts.keys.countP (fun product => categories.get? product = some d)
              ≤ userProducts.keys.countP (fun product => categories.get? product = some c))
    ∧ (getUserPreferredCategories (calculateUserCategoryPreferences userProducts categories)
          = []
        ↔ ∀ product ∈ userProducts.keys, categories.get? product = none) := by
  have hmem := preferred_mem_iff userProducts categories
  refine ⟨hmem, ?_⟩
  rw [List.eq_nil_iff_forall_not_mem]
  constructor
  · intro hall product hp
    cases hc : categories.get? product with
    | none => rfl
    | some c0 =>
      exfalso
      have hpos : 0 < categoryTally userProducts categories c0 := by
        unfold categoryTally
        rw [List.countP_pos_iff]
        exact ⟨product, hp, by simp [hc]⟩
      obtain ⟨hok, htally⟩ := calculate_ok userProducts categories
      obtain ⟨_, hle, hex⟩ := maxCount_fold (calculateUserCategoryPreferences userProducts
        categories) 0
      cases hg : (calculateUserCategoryPreferences userProducts categories).get? c0 with
      | none =>
        have h1 := htally c0
        rw [hg] at h1
        simp at h1
        omega
      | some v =>
        have h1 := hok.2 c0 v hg
        have h2 := hle (c0, v) ((GoMap.mem_iff_get? _ hok.1 c0 v).mpr hg)
        rcases hex with h0 | ⟨e, he, heq⟩
        · simp only at h2
          omega
        · obtain ⟨d, w⟩ := e
          have hd := (GoMap.mem_iff_get? _ hok.1 d w).mp he
          apply hall d
          rw [mem_preferred _ hok.1, hd]
          unfold maxCountOf
          simp only at heq
          rw [heq]
  · intro hall c hc
    have h1 := ((hmem c).mp hc).1
    unfold categoryTally at h1
    rw [List.countP_pos_iff] at h1
    obtain ⟨product, hp, hcat⟩ := h1
    rw [hall product hp] at hcat
    simp at hcat

/-! ## The catalog index -/

/-- C6: in the popularity index returned by `createCategoryProductsMap`, a product that has
a category has a count equal to the number of users whose ratings contain it, and a product
that has no category has no entry. -/
theorem popularity_counts_purchasers {R : Type} (ratings : RatingsData R)
    (categories : ProductCategories) (hwf : ∀ user ∈ ratings, user.2.WF) (product : String) :
    ((categories.get? product).isSome = true →
        ((createCategoryProductsMap ratings categories).2.get? product).getD 0
          = (ratings.countP (fun user => decide (product ∈ user.2.keys)) : Nat))
    ∧ (categories.get? product = none →
        (createCategoryProductsMap ratings categories).2.get? product = none) := by
  constructor
  · intro hcat
    have h := nested_fold_count (indexProduct categories)
      (fun st => (st.2.get? product).getD 0)
      (fun q => (categories.get? q).isSome = true) product
      (fun s q => indexProduct_pop categories s q product) ratings hwf ([], [])
    simp only [hcat, if_true] at h
    unfold createCategoryProductsMap
    rw [h]
    simp [GoMap.get?, purchaserCount]
  · intro hcat
    exact nested_fold_invariant (indexProduct categories) (fun st => st.2.get? product = none)
      (fun s q hs => indexProduct_none categories s q product hcat hs) ratings ([], []) rfl

theorem popularity_counts_purchasers_witness :
    (∀ user ∈ sampleRatings, user.2.WF) ∧
      (GoMap.get? [("p1", "Books")] "p1").isSome = true ∧
      ((createCategoryProductsMap sampleRatings [("p1", "Books")]).2.get? "p1").getD 0
        = (sampleRatings.countP (fun user => decide ("p1" ∈ user.2.keys)) : Nat) ∧
      GoMap.get? [("p1", "Books")] "p9" = none ∧
      (createCategoryProductsMap sampleRatings [("p1", "Books")]).2.get? "p9" = none :=
  ⟨by decide, by decide,
    (popularity_counts_purchasers sampleRatings [("p1", "Books")] (by decide) "p1").1
      (by decide),
    by decide,
    (popularity_counts_purchasers sampleRatings [("p1", "Books")] (by decide) "p9").2
      (by decide)⟩

/-- C7, as stated, fails: a product bought by two users is listed twice under its
category. -/
theorem category_list_duplicate_counterexample :
    (∀ user ∈ sampleRatings, user.2.WF) ∧ GoMap.WF sampleRatings ∧
      (createCategoryProductsMap sampleRatings [("p1", "Books")]).1
        = [("Books", ["p1", "p1"])] ∧
      ¬ (((createCategoryProductsMap sampleRatings [("p1", "Books")]).1.get? "Books").getD
          []).Nodup :=
  ⟨by decide, by decide, by decide, by decide⟩

/-- C7, amended: in the category index returned by `createCategoryProductsMap`, a product
occurs in the list of its own category once for every user whose ratings contain it, and
in no other list. -/
theorem category_list_counts_purchasers {R : Type} (ratings : RatingsData R)
    (categories : ProductCategories) (hwf : ∀ user ∈ ratings, user.2.WF)
    (category product : String) :
    (((createCategoryProductsMap ratings categories).1.get? category).getD []).count product
      = if categories.get? product = some category
        then ratings.countP (fun user => decide (product ∈ user.2.keys)) else 0 := by
  have h := nested_fold_count (indexProduct categories)
    (fun st => (((st.1.get? category).getD []).count product : Int))
    (fun q => categories.get? q = some category) product
    (fun s q => indexProduct_cat categories s q category product) ratings hwf ([], [])
  unfold createCategoryProductsMap
  have h0 : ((((([], []) : CategoryProducts × GoMap Int).1.get? category).getD []).count
      product : Int) = 0 := by simp [GoMap.get?]
  simp only [h0, zero_add] at h
  by_cases hc : categories.get? product = some category
  · simp only [hc, if_true] at h ⊢
    unfold purchaserCount at h
    exact_mod_cast h
  · simp only [hc, if_false] at h ⊢
    exact_mod_cast h

theorem category_list_counts_purchasers_witness :
    (∀ user ∈ sampleRatings, user.2.WF) ∧
    (((createCategoryProductsMap sampleRatings [("p1", "Books")]).1.get? "Books").getD
        []).count "p1"
      = if GoMap.get? [("p1", "Books")] "p1" = some "Books"
        then sampleRatings.countP (fun user => decide ("p1" ∈ user.2.keys)) else 0 :=
  ⟨by decide, category_list_counts_purchasers sampleRatings [("p1", "Books")] (by decide)
    "Books" "p1"⟩

/-! ## The request coordinator -/

/-- C8, as stated, fails: a purchased product that is absent from the category table is
reported with the category "Desconocida", not "Unknown". -/
theorem purchased_unknown_label_counterexample :
    sampleRatings.get? "u1" = some [("p1", 5), ("p9", 3)] ∧
      GoMap.get? [("p1", "Books")] "p9" = none ∧
      (handleClient insertionSort "u1" sampleRatings [("p1", "Books")] [("Books", ["p1", "p1"])]
          [("p1", 2)]).PurchasedProducts
        = [⟨"p1", 5, "Books"⟩, ⟨"p9", 3, "Desconocida"⟩] ∧
      (handleClient insertionSort "u1" sampleRatings [("p1", "Books")] [("Books", ["p1", "p1"])]
          [("p1", 2)]).PurchasedProducts
        ≠ [⟨"p1", 5, "Books"⟩, ⟨"p9", 3, "Unknown"⟩] :=
  ⟨by decide, by decide, by decide, by decide⟩

/-- C8, amended: for a known user the purchased-products payload built by `handleClient`
has one entry per product of the user, carrying that product's rating, whose `Category` is
the product's category when the category table has one and the string "Desconocida" when
the product is absent from the category table. -/
theorem purchased_payload_resolves_category {R : Type}
    (sortSlice : List ProductInfo → List ProductInfo) (userID : String)
    (ratings : RatingsData R) (categories : ProductCategories)
    (categoryProducts : CategoryProducts) (productPopularity : GoMap Int)
    (userProducts : GoMap R) (hknown : ratings.get? userID = some userProducts) :
    (handleClient sortSlice userID ratings categories categoryProducts
        productPopularity).PurchasedProducts
      = userProducts.map (fun entry =>
          ⟨entry.1, entry.2, (categories.get? entry.1).getD "Desconocida"⟩) := by
  have hres : ∀ q, resolvedCategory categories q = (categories.get? q).getD "Desconocida" := by
    intro q
    unfold resolvedCategory
    cases categories.get? q <;> rfl
  unfold handleClient
  rw [hknown]
  simp only [purchasedLoop_eq, List.nil_append, hres]
  split <;> rfl

theorem purchased_payload_resolves_category_witness :
    sampleRatings.get? "u1" = some [("p1", 5), ("p9", 3)] ∧
      (handleClient insertionSort "u1" sampleRatings [("p1", "Books")] [("Books", ["p1", "p1"])]
          [("p1", 2)]).PurchasedProducts
        = List.map (fun entry =>
            (⟨entry.1, entry.2, (GoMap.get? [("p1", "Books")] entry.1).getD "Desconocida"⟩ :
              UserProduct ℚ))
          [("p1", 5), ("p9", 3)] :=
  ⟨by decide, purchased_payload_resolves_category insertionSort "u1" sampleRatings
    [("p1", "Books")] [("Books", ["p1", "p1"])] [("p1", 2)] [("p1", 5), ("p9", 3)] (by decide)⟩

end Recommend
